import Mathlib

/-!
Verification development for the wangle pipeline / dispatcher / codec core.

The definitions below are shallow embeddings of the C++ sources:
 * `HandlerDir`, `Ctx`, `addHelper`, `finalize` follow `PipelineBase` /
   `Pipeline<R,W>` (Pipeline.h / Pipeline-inl.h) and `ContextImplBase`
   (HandlerContext-inl.h).  C++ template type parameters are represented by
   runtime type tags (`Nat`), as the linkage checks in the source are dynamic
   casts on exactly those types.
 * the frame decoder follows `LengthFieldBasedFrameDecoder.cpp`,
 * the Codel detector follows `Codel.cpp`,
 * the dispatchers follow `ServerDispatcher.h` and `ClientDispatcher.h`,
 * handler attachment follows `Handler.h` / `HandlerContext.h`,
 * the socket write path follows `AsyncSocketHandler.h`.
-/

namespace Wangle

/-- Direction capability of a handler, `HandlerDir` in HandlerContext.h. -/
inductive HandlerDir where
  | IN
  | OUT
  | BOTH
deriving DecidableEq, BEq

/-- Models `Context::dir == HandlerDir::BOTH || Context::dir == HandlerDir::IN`,
the condition guarding insertion into `inCtxs_` in `PipelineBase::addHelper`. -/
def HandlerDir.inCapable (d : HandlerDir) : Bool :=
  d == HandlerDir.BOTH || d == HandlerDir.IN

/-- Models `Context::dir == HandlerDir::BOTH || Context::dir == HandlerDir::OUT`,
the condition guarding insertion into `outCtxs_` in `PipelineBase::addHelper`. -/
def HandlerDir.outCapable (d : HandlerDir) : Bool :=
  d == HandlerDir.BOTH || d == HandlerDir.OUT

/-- A pipeline context (`ContextImpl` / `InboundContextImpl` /
`OutboundContextImpl`).  `id` stands for the object identity of the context;
`rin`, `rout`, `win`, `wout` are runtime tags for the handler's associated
types `H::rin`, `H::rout`, `H::win`, `H::wout` (the dynamic casts in
`setNextIn` / `setNextOut` test exactly these). -/
structure Ctx where
  id : Nat
  dir : HandlerDir
  rin : Nat
  rout : Nat
  win : Nat
  wout : Nat
deriving DecidableEq

/-- The three context containers of `PipelineBase`: `ctxs_`, `inCtxs_`,
`outCtxs_`. -/
structure PipelineState where
  ctxs : List Ctx
  inCtxs : List Ctx
  outCtxs : List Ctx
deriving DecidableEq

/-- Models `vector::insert(front ? begin() : end(), ctx)`. -/
def insertCtx (front : Bool) (c : Ctx) (l : List Ctx) : List Ctx :=
  if front then c :: l else l ++ [c]

/-- Models `PipelineBase::addHelper(ctx, front)`: insert into the all-list, and into
the IN and/or OUT sublist according to the context's direction. -/
def addHelper (c : Ctx) (front : Bool) (s : PipelineState) : PipelineState :=
  { ctxs := insertCtx front c s.ctxs
    inCtxs := if c.dir.inCapable then insertCtx front c s.inCtxs else s.inCtxs
    outCtxs := if c.dir.outCapable then insertCtx front c s.outCtxs else s.outCtxs }

/-- One `addFront` (`front = true`) or `addBack` (`front = false`) call,
carrying the direction and type tags of the handler being wrapped. -/
structure AddOp where
  front : Bool
  dir : HandlerDir
  rin : Nat
  rout : Nat
  win : Nat
  wout : Nat
deriving DecidableEq

/-- The context freshly created for the `n`-th add call
(`std::make_shared<Context>(shared_from_this(), handler)`); `n` plays the
role of the new object's identity. -/
def mkCtx (n : Nat) (op : AddOp) : Ctx :=
  ⟨n, op.dir, op.rin, op.rout, op.win, op.wout⟩

/-- Run a sequence of add calls, numbering the created contexts. -/
def buildAux : List AddOp → Nat → PipelineState → PipelineState
  | [], _, s => s
  | op :: rest, n, s => buildAux rest (n + 1) (addHelper (mkCtx n op) op.front s)

/-- A pipeline produced by a sequence of `addFront` / `addBack` calls on a
freshly created (empty) pipeline. -/
def build (ops : List AddOp) : PipelineState :=
  buildAux ops 0 ⟨[], [], []⟩

/-- Models `ContextImplBase::setNextIn`: the dynamic cast
`dynamic_cast<InboundLink<H::rout>*>(ctx)` succeeds iff the next context's
`rin` tag equals this context's `rout` tag. -/
def inLinkCheck (a b : Ctx) : Bool :=
  b.rin == a.rout

/-- Models `ContextImplBase::setNextOut`: the dynamic cast
`dynamic_cast<OutboundLink<H::wout>*>(ctx)` succeeds iff the next context's
`win` tag equals this context's `wout` tag. -/
def outLinkCheck (a b : Ctx) : Bool :=
  b.win == a.wout

/-- The linkage loop of `Pipeline::finalize` over one sublist: link each
element to its successor (throwing `std::invalid_argument` on a failed
dynamic cast, first failure wins) and give the last element a null link.
The result maps each context id to its next link. -/
def linkChainBy (check : Ctx → Ctx → Bool) (err : String) :
    List Ctx → Except String (List (Nat × Option Nat))
  | [] => .ok []
  | [a] => .ok [(a.id, none)]
  | a :: b :: rest =>
    if check a b then
      match linkChainBy check err (b :: rest) with
      | .ok m => .ok ((a.id, some b.id) :: m)
      | .error e => .error e
    else
      .error err

/-- The result of `Pipeline<R,W>::finalize`: the `front_` and `back_`
pointers and the `nextIn_` / `nextOut_` link fields of the contexts. -/
structure Finalized where
  front : Option Nat
  back : Option Nat
  nextIn : List (Nat × Option Nat)
  nextOut : List (Nat × Option Nat)
deriving DecidableEq

/-- Models `front_ = dynamic_cast<InboundLink<R>*>(inCtxs_.front())`: null when the
IN list is empty, and also (silently) when the first IN context's `rin` tag
differs from the pipeline's `R`. -/
def frontCast (R : Nat) : List Ctx → Option Nat
  | [] => none
  | c :: _ => if c.rin == R then some c.id else none

/-- Models `back_ = dynamic_cast<OutboundLink<W>*>(outCtxs_.back())`: null when the
OUT list is empty, and also (silently) when the last OUT context's `win` tag
differs from the pipeline's `W`. -/
def backCast (W : Nat) (l : List Ctx) : Option Nat :=
  match l.getLast? with
  | none => none
  | some c => if c.win == W then some c.id else none

/-- Models `Pipeline<R,W>::finalize`: cast the front pointer, link the IN list
forwards, cast the back pointer, link the OUT list backwards (the loop runs
`i = size-1` down to `1`, i.e. front-to-back over the reversed OUT list).
A failed `setNextIn` / `setNextOut` cast throws `std::invalid_argument`. -/
def finalize (R W : Nat) (s : PipelineState) : Except String Finalized :=
  match linkChainBy inLinkCheck ("inbound type mismatch") s.inCtxs with
  | .error e => .error e
  | .ok mIn =>
    match linkChainBy outLinkCheck ("outbound type mismatch") s.outCtxs.reverse with
    | .error e => .error e
    | .ok mOut => .ok ⟨frontCast R s.inCtxs, backCast W s.outCtxs, mIn, mOut⟩

/-- Follow `nextIn_` / `nextOut_` links starting from a pointer, collecting
the visited context ids; `fuel` bounds the number of steps. -/
def walk (m : List (Nat × Option Nat)) : Nat → Option Nat → List Nat
  | _, none => []
  | 0, some _ => []
  | fuel + 1, some i => i :: walk m fuel ((m.lookup i).getD none)

/-- Head id of a context list (the target of a successful front cast). -/
def headId : List Ctx → Option Nat
  | [] => none
  | c :: _ => some c.id

/-- The while-loop shape of `linkChainBy` as a boolean: every adjacent pair
of the list passes the `setNext` dynamic-cast check. -/
def chainOK (check : Ctx → Ctx → Bool) : List Ctx → Bool
  | [] => true
  | [_] => true
  | a :: b :: rest => check a b && chainOK check (b :: rest)

/-- Whether a call ended in a thrown `std::invalid_argument`. -/
def isError {α : Type} : Except String α → Bool
  | .error _ => true
  | .ok _ => false

theorem lookup_append_of_not_mem_keys {β : Type} (l₁ l₂ : List (Nat × β)) (k : Nat)
    (h : k ∉ l₁.map Prod.fst) : (l₁ ++ l₂).lookup k = l₂.lookup k := by
  induction l₁ with
  | nil => rfl
  | cons p rest ih =>
    simp only [List.map_cons, List.mem_cons, not_or] at h
    simp only [List.cons_append, List.lookup]
    have : (k == p.1) = false := by
      exact beq_false_of_ne h.1
    rw [this]
    exact ih h.2

theorem walk_linkChainBy (check : Ctx → Ctx → Bool) (err : String) (l : List Ctx) :
    ∀ (pre m : List (Nat × Option Nat)) (fuel : Nat),
      linkChainBy check err l = .ok m →
      (l.map Ctx.id).Nodup →
      (∀ k ∈ pre.map Prod.fst, k ∉ l.map Ctx.id) →
      l.length ≤ fuel →
      walk (pre ++ m) fuel (headId l) = l.map Ctx.id := by
  induction l with
  | nil =>
    intro pre m fuel hok _ _ _
    simp only [linkChainBy, Except.ok.injEq] at hok
    subst hok
    cases fuel <;> rfl
  | cons a tail ih =>
    cases tail with
    | nil =>
      intro pre m fuel hok _ hdisj hfuel
      simp only [linkChainBy, Except.ok.injEq] at hok
      subst hok
      cases fuel with
      | zero => simp at hfuel
      | succ f =>
        have hnk : a.id ∉ pre.map Prod.fst := by
          intro hk
          exact hdisj a.id hk (by simp)
        simp only [walk, headId]
        rw [lookup_append_of_not_mem_keys _ _ _ hnk]
        simp [List.lookup, walk]
    | cons b rest =>
      intro pre m fuel hok hnd hdisj hfuel
      simp only [linkChainBy] at hok
      cases hcheck : check a b with
      | false => rw [hcheck] at hok; simp at hok
      | true =>
        rw [hcheck] at hok
        simp only [if_true] at hok
        cases heq : linkChainBy check err (b :: rest) with
        | error e => rw [heq] at hok; simp at hok
        | ok m' =>
          rw [heq] at hok
          simp only [Except.ok.injEq] at hok
          subst hok
          cases fuel with
          | zero => simp at hfuel
          | succ f =>
            have hna : a.id ∉ pre.map Prod.fst := by
              intro hk
              exact hdisj a.id hk (by simp)
            simp only [walk, headId]
            rw [lookup_append_of_not_mem_keys _ _ _ hna]
            simp only [List.lookup, beq_self_eq_true, Option.getD_some]
            have hrw : pre ++ (a.id, some b.id) :: m' = (pre ++ [(a.id, some b.id)]) ++ m' := by
              simp
            rw [hrw]
            have hih := ih (pre ++ [(a.id, some b.id)]) m' f heq
              (by exact (List.nodup_cons.mp hnd).2)
              (by
                intro k hk hmem
                simp only [List.map_append, List.mem_append, List.map_cons,
                  List.mem_singleton, List.map_nil] at hk
                cases hk with
                | inl hk =>
                  exact hdisj k (by simpa using hk)
                    (by rw [List.map_cons]; exact List.mem_cons_of_mem _ hmem)
                | inr hk =>
                  simp at hk
                  subst hk
                  exact (List.nodup_cons.mp hnd).1 hmem)
              (by simpa using Nat.le_of_succ_le_succ hfuel)
            rw [headId] at hih
            rw [hih]
            simp

/-- IN-capable filter invariant, fresh-id bound and id distinctness of the
pipeline containers, as maintained by `addHelper`. -/
def goodState (n : Nat) (s : PipelineState) : Prop :=
  s.inCtxs = s.ctxs.filter (fun c => c.dir.inCapable) ∧
  s.outCtxs = s.ctxs.filter (fun c => c.dir.outCapable) ∧
  (∀ c ∈ s.ctxs, c.id < n) ∧
  (s.ctxs.map Ctx.id).Nodup

theorem goodState_addHelper (n : Nat) (s : PipelineState) (op : AddOp)
    (h : goodState n s) : goodState (n + 1) (addHelper (mkCtx n op) op.front s) := by
  obtain ⟨hin, hout, hlt, hnd⟩ := h
  have hfresh : (mkCtx n op).id ∉ s.ctxs.map Ctx.id := by
    intro hmem
    simp only [List.mem_map] at hmem
    obtain ⟨c, hc, hcid⟩ := hmem
    exact absurd hcid (Nat.ne_of_gt (by simpa [mkCtx] using hlt c hc)).symm
  have hfilter : ∀ (p : Ctx → Bool) (l : List Ctx),
      (insertCtx op.front (mkCtx n op) l).filter p =
      if p (mkCtx n op) then insertCtx op.front (mkCtx n op) (l.filter p)
      else l.filter p := by
    intro p l
    cases hf : op.front <;> cases hp : p (mkCtx n op) <;>
      simp [insertCtx, List.filter_cons, List.filter_append, hp]
  have hshape : insertCtx op.front (mkCtx n op) s.ctxs = (mkCtx n op) :: s.ctxs ∨
      insertCtx op.front (mkCtx n op) s.ctxs = s.ctxs ++ [mkCtx n op] := by
    cases hf : op.front
    · right; simp [insertCtx, hf]
    · left; simp [insertCtx, hf]
  constructor
  · simp only [addHelper]
    rw [hfilter (fun c => c.dir.inCapable) s.ctxs, hin]
  constructor
  · simp only [addHelper]
    rw [hfilter (fun c => c.dir.outCapable) s.ctxs, hout]
  constructor
  · intro c hc
    simp only [addHelper] at hc
    cases hshape with
    | inl hs =>
      rw [hs] at hc
      cases hc with
      | head => simp [mkCtx]
      | tail _ hc => exact Nat.lt_succ_of_lt (hlt c hc)
    | inr hs =>
      rw [hs] at hc
      rw [List.mem_append] at hc
      cases hc with
      | inl hc => exact Nat.lt_succ_of_lt (hlt c hc)
      | inr hc => simp at hc; subst hc; simp [mkCtx]
  · simp only [addHelper]
    cases hshape with
    | inl hs =>
      rw [hs, List.map_cons]
      exact List.nodup_cons.mpr ⟨hfresh, hnd⟩
    | inr hs =>
      rw [hs, List.map_append, List.map_singleton]
      rw [List.nodup_append]
      refine ⟨hnd, List.nodup_singleton _, ?_⟩
      intro x hx hx'
      simp at hx'
      subst hx'
      exact hfresh hx

theorem buildAux_goodState (ops : List AddOp) :
    ∀ (n : Nat) (s : PipelineState), goodState n s →
      goodState (n + ops.length) (buildAux ops n s) := by
  induction ops with
  | nil => intro n s h; simpa using h
  | cons op rest ih =>
    intro n s h
    have := ih (n + 1) (addHelper (mkCtx n op) op.front s) (goodState_addHelper n s op h)
    simpa [buildAux, Nat.add_comm, Nat.add_assoc, Nat.add_left_comm] using this

theorem build_goodState (ops : List AddOp) : goodState ops.length (build ops) := by
  have := buildAux_goodState ops 0 ⟨[], [], []⟩ (by refine ⟨rfl, rfl, ?_, ?_⟩ <;> simp)
  simpa [build] using this

theorem headId_eq_head? (l : List Ctx) : headId l = l.head?.map Ctx.id := by
  cases l <;> rfl

theorem finalize_ok_elim (R W : Nat) (s : PipelineState) (fs : Finalized)
    (h : finalize R W s = .ok fs) :
    ∃ mIn mOut,
      linkChainBy inLinkCheck ("inbound type mismatch") s.inCtxs = .ok mIn ∧
      linkChainBy outLinkCheck ("outbound type mismatch") s.outCtxs.reverse = .ok mOut ∧
      fs = ⟨frontCast R s.inCtxs, backCast W s.outCtxs, mIn, mOut⟩ := by
  unfold finalize at h
  cases h1 : linkChainBy inLinkCheck ("inbound type mismatch") s.inCtxs with
  | error e => rw [h1] at h; exact absurd h (by simp)
  | ok mIn =>
    rw [h1] at h
    cases h2 : linkChainBy outLinkCheck ("outbound type mismatch") s.outCtxs.reverse with
    | error e => rw [h2] at h; exact absurd h (by simp)
    | ok mOut =>
      rw [h2] at h
      simp only [Except.ok.injEq] at h
      exact ⟨mIn, mOut, rfl, rfl, h.symm⟩

theorem linkChainBy_error_of_chainOK_false (check : Ctx → Ctx → Bool) (err : String) :
    ∀ l, chainOK check l = false → isError (linkChainBy check err l) = true := by
  intro l
  induction l with
  | nil => intro h; simp [chainOK] at h
  | cons a tail ih =>
    cases tail with
    | nil => intro h; simp [chainOK] at h
    | cons b rest =>
      intro h
      cases hc : check a b with
      | false => simp [linkChainBy, hc, isError]
      | true =>
        have hrest : chainOK check (b :: rest) = false := by
          simpa only [chainOK, hc, Bool.true_and] using h
        have := ih hrest
        cases hl : linkChainBy check err (b :: rest) with
        | error e => simp [linkChainBy, hc, hl, isError]
        | ok m => rw [hl] at this; simp [isError] at this

example : build [⟨false, .BOTH, 1, 2, 3, 4⟩] =
    ⟨[⟨0, .BOTH, 1, 2, 3, 4⟩], [⟨0, .BOTH, 1, 2, 3, 4⟩], [⟨0, .BOTH, 1, 2, 3, 4⟩]⟩ := by
  decide

example :
    finalize 1 3 (build [⟨false, .BOTH, 1, 2, 3, 4⟩, ⟨false, .BOTH, 2, 2, 3, 3⟩]) =
    .ok ⟨some 0, some 1, [(0, some 1), (1, none)], [(1, some 0), (0, none)]⟩ := by
  rfl

example :
    walk [(0, some 1), (1, none)] 2 (some 0) = [0, 1] := by
  decide

/-- C1 (amended): for every pipeline and every sequence of addFront/addBack
calls, after `finalize()` completes successfully — and provided the first
IN-capable context's inbound-input type equals the pipeline's `R` and the
last OUT-capable context's outbound-input type equals the pipeline's `W`
(so the silent `front_` / `back_` dynamic casts succeed) — starting from the
front pointer and following `nextIn` links visits exactly the IN-capable
contexts in insertion order ending in null, and starting from the back
pointer and following `nextOut` links visits exactly the OUT-capable
contexts in reverse insertion order ending in null.  The walks are fueled
by any bound at least the chain length, so they genuinely stop at the null
link. -/
theorem pipeline_finalize_chain_walk (R W : Nat) (ops : List AddOp) (fs : Finalized)
    (hok : finalize R W (build ops) = .ok fs)
    (hfront : ∀ c ∈ (build ops).inCtxs.head?, c.rin = R)
    (hback : ∀ c ∈ (build ops).outCtxs.getLast?, c.win = W)
    (fuelIn fuelOut : Nat)
    (hfi : (build ops).inCtxs.length ≤ fuelIn)
    (hfo : (build ops).outCtxs.length ≤ fuelOut) :
    walk fs.nextIn fuelIn fs.front =
      ((build ops).ctxs.filter (fun c => c.dir.inCapable)).map Ctx.id ∧
    walk fs.nextOut fuelOut fs.back =
      (((build ops).ctxs.filter (fun c => c.dir.outCapable)).map Ctx.id).reverse := by
  obtain ⟨mIn, mOut, hIn, hOut, hfs⟩ := finalize_ok_elim R W (build ops) fs hok
  subst hfs
  obtain ⟨hinEq, houtEq, _, hnd⟩ := build_goodState ops
  have hndIn : ((build ops).inCtxs.map Ctx.id).Nodup := by
    have hsub : List.Sublist ((build ops).inCtxs.map Ctx.id)
        ((build ops).ctxs.map Ctx.id) := by
      rw [hinEq]
      exact (List.filter_sublist _).map _
    exact hnd.sublist hsub
  have hndOut : ((build ops).outCtxs.reverse.map Ctx.id).Nodup := by
    have hsub : List.Sublist ((build ops).outCtxs.map Ctx.id)
        ((build ops).ctxs.map Ctx.id) := by
      rw [houtEq]
      exact (List.filter_sublist _).map _
    rw [List.map_reverse, List.nodup_reverse]
    exact hnd.sublist hsub
  have hfrontEq : frontCast R (build ops).inCtxs = headId (build ops).inCtxs := by
    cases h : (build ops).inCtxs with
    | nil => rfl
    | cons c t =>
      have hc := hfront c (by rw [h]; rfl)
      simp [frontCast, headId, hc]
  have hbackEq : backCast W (build ops).outCtxs = headId (build ops).outCtxs.reverse := by
    rw [headId_eq_head?, List.head?_reverse]
    cases h : (build ops).outCtxs.getLast? with
    | none => simp [backCast, h]
    | some c =>
      have hc := hback c (by rw [h]; rfl)
      simp [backCast, h, hc]
  constructor
  · have hw := walk_linkChainBy inLinkCheck ("inbound type mismatch") (build ops).inCtxs
      [] mIn fuelIn hIn hndIn (by simp) hfi
    simp only [List.nil_append] at hw
    show walk mIn fuelIn (frontCast R (build ops).inCtxs) =
      ((build ops).ctxs.filter (fun c => c.dir.inCapable)).map Ctx.id
    rw [hfrontEq, hw, hinEq]
  · have hw := walk_linkChainBy outLinkCheck ("outbound type mismatch")
      (build ops).outCtxs.reverse [] mOut fuelOut hOut hndOut (by simp)
      (by simpa using hfo)
    simp only [List.nil_append] at hw
    show walk mOut fuelOut (backCast W (build ops).outCtxs) =
      (((build ops).ctxs.filter (fun c => c.dir.outCapable)).map Ctx.id).reverse
    rw [hbackEq, hw, List.map_reverse, houtEq]

/-- C1 counterexample: take `Pipeline<R,W>` with type tag `R = 0`, and a
single `addBack` of an IN handler whose inbound-input tag is `1 ≠ 0`.
`finalize()` completes without error, but the `front_` dynamic cast fails
silently, so the walk from the front pointer visits no context even though
one IN-capable context is in the pipeline — refuting the claim as stated
for this add sequence. -/
theorem pipeline_finalize_chain_walk_cex :
    finalize 0 0 (build [⟨false, .IN, 1, 1, 7, 7⟩]) =
      .ok ⟨none, none, [(0, none)], []⟩ ∧
    walk [(0, none)] 1 none = [] ∧
    ((build [⟨false, .IN, 1, 1, 7, 7⟩]).ctxs.filter
      (fun c => c.dir.inCapable)).map Ctx.id = [0] := by
  exact ⟨rfl, rfl, rfl⟩

/-- C1 witness: a two-handler BOTH/BOTH pipeline with chaining types; both
finalized walks visit the contexts as claimed. -/
theorem pipeline_finalize_chain_walk_witness :
    finalize 1 6 (build [⟨false, .BOTH, 1, 2, 3, 4⟩, ⟨false, .BOTH, 2, 5, 6, 3⟩]) =
      .ok ⟨some 0, some 1, [(0, some 1), (1, none)], [(1, some 0), (0, none)]⟩ ∧
    walk [(0, some 1), (1, none)] 2 (some 0) = [0, 1] ∧
    walk [(1, some 0), (0, none)] 2 (some 1) = [1, 0] := by
  have h := pipeline_finalize_chain_walk 1 6
    [⟨false, .BOTH, 1, 2, 3, 4⟩, ⟨false, .BOTH, 2, 5, 6, 3⟩]
    ⟨some 0, some 1, [(0, some 1), (1, none)], [(1, some 0), (0, none)]⟩
    rfl (by decide) (by decide) 2 2 (by decide) (by decide)
  exact ⟨rfl, h.1.trans (by decide), h.2.trans (by decide)⟩

/-- C7: during finalization, if any adjacent pair in the IN sublist fails the
inbound-type check (next's `Ri` differs from this node's `Ro`), or any
adjacent pair in the OUT linking order fails the outbound-type check,
`finalize` fails deterministically with an invalid-argument error. -/
theorem finalize_type_mismatch_fails (R W : Nat) (s : PipelineState)
    (h : chainOK inLinkCheck s.inCtxs = false ∨
      chainOK outLinkCheck s.outCtxs.reverse = false) :
    isError (finalize R W s) = true := by
  cases h1 : linkChainBy inLinkCheck ("inbound type mismatch") s.inCtxs with
  | error e => simp [finalize, h1, isError]
  | ok mIn =>
    cases h with
    | inl hl =>
      have := linkChainBy_error_of_chainOK_false inLinkCheck ("inbound type mismatch")
        s.inCtxs hl
      rw [h1] at this
      simp [isError] at this
    | inr hr =>
      cases h2 : linkChainBy outLinkCheck ("outbound type mismatch") s.outCtxs.reverse with
      | error e => simp [finalize, h1, h2, isError]
      | ok mOut =>
        have := linkChainBy_error_of_chainOK_false outLinkCheck ("outbound type mismatch")
          s.outCtxs.reverse hr
        rw [h2] at this
        simp [isError] at this

/-- C7 witness: two BOTH handlers whose types do not chain (`rout = 2` feeding
`rin = 9`) make `finalize` fail. -/
theorem finalize_type_mismatch_fails_witness :
    chainOK inLinkCheck (build [⟨false, .BOTH, 1, 2, 3, 4⟩, ⟨false, .BOTH, 9, 9, 9, 9⟩]).inCtxs
      = false ∧
    isError (finalize 1 3 (build [⟨false, .BOTH, 1, 2, 3, 4⟩, ⟨false, .BOTH, 9, 9, 9, 9⟩]))
      = true := by
  exact ⟨by decide, finalize_type_mismatch_fails 1 3 _ (Or.inl (by decide))⟩

/-- Models `Pipeline<R,W>::read`: `if (!front_) throw std::invalid_argument(...)`,
else delegate to `front_->read` (the returned id is the delegation target). -/
def readEntry (fs : Finalized) : Except String Nat :=
  match fs.front with
  | none => .error ("read(): no inbound handler in Pipeline")
  | some f => .ok f

/-- Models `Pipeline<R,W>::readEOF`. -/
def readEOFEntry (fs : Finalized) : Except String Nat :=
  match fs.front with
  | none => .error ("readEOF(): no inbound handler in Pipeline")
  | some f => .ok f

/-- Models `Pipeline<R,W>::readException`. -/
def readExceptionEntry (fs : Finalized) : Except String Nat :=
  match fs.front with
  | none => .error ("readException(): no inbound handler in Pipeline")
  | some f => .ok f

/-- Models `Pipeline<R,W>::transportActive`: `if (front_) front_->transportActive();`
— no throw on a null front, the call silently does nothing. -/
def transportActiveEntry (fs : Finalized) : Except String (Option Nat) :=
  .ok fs.front

/-- Models `Pipeline<R,W>::transportInactive`: also guarded by `if (front_)`. -/
def transportInactiveEntry (fs : Finalized) : Except String (Option Nat) :=
  .ok fs.front

/-- Models `Pipeline<R,W>::write`. -/
def writeEntry (fs : Finalized) : Except String Nat :=
  match fs.back with
  | none => .error ("write(): no outbound handler in Pipeline")
  | some b => .ok b

/-- Models `Pipeline<R,W>::writeException`. -/
def writeExceptionEntry (fs : Finalized) : Except String Nat :=
  match fs.back with
  | none => .error ("writeException(): no outbound handler in Pipeline")
  | some b => .ok b

/-- Models `Pipeline<R,W>::close`. -/
def closeEntry (fs : Finalized) : Except String Nat :=
  match fs.back with
  | none => .error ("close(): no outbound handler in Pipeline")
  | some b => .ok b

/-- C4 (amended): for every finalized pipeline whose inbound chain is empty,
read, readEOF and readException raise an invalid-argument error, while
transportActive and transportInactive are silent no-ops (not errors); for
every finalized pipeline whose outbound chain is empty, each of write,
writeException and close raises an invalid-argument error. -/
theorem pipeline_empty_chain_entries (fs : Finalized) :
    (fs.front = none →
      isError (readEntry fs) = true ∧
      isError (readEOFEntry fs) = true ∧
      isError (readExceptionEntry fs) = true ∧
      transportActiveEntry fs = .ok none ∧
      transportInactiveEntry fs = .ok none) ∧
    (fs.back = none →
      isError (writeEntry fs) = true ∧
      isError (writeExceptionEntry fs) = true ∧
      isError (closeEntry fs) = true) := by
  constructor <;> intro h <;>
    simp [readEntry, readEOFEntry, readExceptionEntry, transportActiveEntry,
      transportInactiveEntry, writeEntry, writeExceptionEntry, closeEntry,
      isError, h]

/-- C4 counterexample: the empty pipeline finalizes with a null front pointer,
and `transportActive` / `transportInactive` do not raise an invalid-argument
error — the source guards them with `if (front_)` and silently does nothing,
refuting the claim that all five inbound entry points throw. -/
theorem pipeline_empty_chain_entries_cex :
    finalize 0 0 (build []) = .ok ⟨none, none, [], []⟩ ∧
    transportActiveEntry ⟨none, none, [], []⟩ = .ok none ∧
    transportInactiveEntry ⟨none, none, [], []⟩ = .ok none ∧
    isError (transportActiveEntry ⟨none, none, [], []⟩) = false := by
  exact ⟨rfl, rfl, rfl, rfl⟩

/-- C4 witness: the amended behaviour evaluated on the empty finalized
pipeline. -/
theorem pipeline_empty_chain_entries_witness :
    isError (readEntry ⟨none, none, [], []⟩) = true ∧
    transportActiveEntry ⟨none, none, [], []⟩ = .ok none ∧
    isError (writeEntry ⟨none, none, [], []⟩) = true := by
  have h := pipeline_empty_chain_entries ⟨none, none, [], []⟩
  exact ⟨(h.1 rfl).1, (h.1 rfl).2.2.2.1, (h.2 rfl).1⟩

/-! ### Length-field based frame decoder (LengthFieldBasedFrameDecoder.cpp)

The byte queue is a `List Nat`; `List.drop` models `IOBufQueue::trimStart`
on the consumed region (the spec fixes the boundary behaviour of the
external queue to best-effort: on a short queue it consumes what is
present, which is exactly `List.drop`'s saturation).  The `uint64_t`
length arithmetic is taken modulo `2 ^ 64`. -/

/-- Constructor parameters of `LengthFieldBasedFrameDecoder` (all `uint32_t`
plus the endianness flag). -/
structure DecoderParams where
  lengthFieldLength : Nat
  maxFrameLength : Nat
  lengthFieldOffset : Nat
  lengthAdjustment : Nat
  initialBytesToStrip : Nat
  networkByteOrder : Bool
deriving DecidableEq

/-- Models `lengthFieldEndOffset_ = lengthFieldOffset + lengthFieldLength`. -/
def DecoderParams.lengthFieldEndOffset (p : DecoderParams) : Nat :=
  p.lengthFieldOffset + p.lengthFieldLength

/-- Big-endian (`readBE`) value of a byte run. -/
def readBE (bytes : List Nat) : Nat :=
  bytes.foldl (fun acc b => acc * 256 + b) 0

/-- Little-endian (`readLE`) value of a byte run. -/
def readLE (bytes : List Nat) : Nat :=
  readBE bytes.reverse

/-- Models `getUnadjustedFrameLength`: skip `offset` bytes and read a 1/2/4/8 byte
integer with the configured endianness.  The source `switch` has no default
case (any other width leaves the result uninitialized), so theorems about
`decode` assume a legal width. -/
def getUnadjustedFrameLength (buf : List Nat) (offset length : Nat)
    (networkByteOrder : Bool) : Nat :=
  match length with
  | 1 | 2 | 4 | 8 =>
    if networkByteOrder then readBE ((buf.drop offset).take length)
    else readLE ((buf.drop offset).take length)
  | _ => 0

/-- The value `frameLength` after `frameLength += lengthAdjustment_ +
lengthFieldEndOffset_` but before the `uint64_t` wrap: the "total" length
of the frame region including offset and length field. -/
def decodedTotal (p : DecoderParams) (buf : List Nat) : Nat :=
  getUnadjustedFrameLength buf p.lengthFieldOffset p.lengthFieldLength p.networkByteOrder
    + p.lengthAdjustment + p.lengthFieldEndOffset

/-- Error outcomes of `decode`: the read-exceptions it fires on the context
(`frameTooSmall`, `frameTooLarge`, `stripTooLarge`), and `splitUnderflow`,
the `std::underflow_error` that the external `IOBufQueue::split` throws when
asked for more bytes than the queue holds (reached when the 32-bit
narrowing of the split size goes negative and converts to a huge
`size_t`). -/
inductive DecodeErr where
  | frameTooSmall
  | frameTooLarge (maxFrame : Nat)
  | stripTooLarge
  | splitUnderflow
deriving DecidableEq

/-- Two's-complement narrowing of an unsigned value to a 32-bit `int`, as
performed by `int actualFrameLength = frameLength - initialBytesToStrip_;`
(and by the `(int)` cast in `Codel::getLoad`). -/
def toInt32 (n : Nat) : Int :=
  if n % 2 ^ 32 < 2 ^ 31 then ((n % 2 ^ 32 : Nat) : Int)
  else ((n % 2 ^ 32 : Nat) : Int) - 2 ^ 32

/-- Conversion of an `int` to the 64-bit `size_t` parameter of
`buf.split(actualFrameLength)` (modular). -/
def intToSizeT (i : Int) : Nat :=
  (i % 2 ^ 64).toNat

/-- The `size_t` actually handed to `buf.split` by the last line of
`decode`: the `uint64_t` difference `frameLength - initialBytesToStrip_`
narrowed to `int` and widened back to `size_t`. -/
def splitSize (p : DecoderParams) (buf : List Nat) : Nat :=
  intToSizeT (toInt32 (decodedTotal p buf % 2 ^ 64 - p.initialBytesToStrip))

/-- Result of one `decode` invocation: the remaining queue, the emitted
frame (`split` result) if any, and the read-exception if one was fired. -/
structure DecodeResult where
  buf : List Nat
  frame : Option (List Nat)
  err : Option DecodeErr
deriving DecidableEq

/-- Models `LengthFieldBasedFrameDecoder::decode`, step for step.  The last
line computes `int actualFrameLength = frameLength - initialBytesToStrip_;`
— a 32-bit narrowing — and calls `buf.split(actualFrameLength)`, which
removes and returns that many bytes when they are present and otherwise
throws `std::underflow_error` (an external-queue boundary; the spec leaves
the post-throw queue state unspecified, the model keeps the post-trim
queue). -/
def decode (p : DecoderParams) (buf : List Nat) : DecodeResult :=
  if buf.length < p.lengthFieldEndOffset then
    ⟨buf, none, none⟩
  else if decodedTotal p buf % 2 ^ 64 < p.lengthFieldEndOffset then
    ⟨buf.drop p.lengthFieldEndOffset, none, some .frameTooSmall⟩
  else if p.maxFrameLength < decodedTotal p buf % 2 ^ 64 then
    ⟨buf.drop (decodedTotal p buf % 2 ^ 64), none, some (.frameTooLarge p.maxFrameLength)⟩
  else if buf.length < decodedTotal p buf % 2 ^ 64 then
    ⟨buf, none, none⟩
  else if decodedTotal p buf % 2 ^ 64 < p.initialBytesToStrip then
    ⟨buf.drop (decodedTotal p buf % 2 ^ 64), none, some .stripTooLarge⟩
  else if splitSize p buf ≤ (buf.drop p.initialBytesToStrip).length then
    ⟨(buf.drop p.initialBytesToStrip).drop (splitSize p buf),
      some ((buf.drop p.initialBytesToStrip).take (splitSize p buf)),
      none⟩
  else
    ⟨buf.drop p.initialBytesToStrip, none, some .splitUnderflow⟩

/-- C2 (amended): for every decoder configuration (legal field width,
`uint32_t` maxFrame) and every input queue of length at least
`total = parsedLengthField + adjust + (offset + L)` with `total ≤ maxFrame`
and `strip ≤ total`, and provided `total − strip < 2^31` (so the `int`
narrowing of the split size is value-preserving), a single decode invocation
consumes exactly `total` bytes, emits exactly one frame consisting of the
`total - strip` bytes that followed the first `strip` bytes of the region,
and raises no read-exception. -/
theorem decode_emits_frame (p : DecoderParams) (buf : List Nat)
    (hL : p.lengthFieldLength = 1 ∨ p.lengthFieldLength = 2 ∨
      p.lengthFieldLength = 4 ∨ p.lengthFieldLength = 8)
    (hmax : p.maxFrameLength < 2 ^ 32)
    (htot : decodedTotal p buf ≤ p.maxFrameLength)
    (hlen : decodedTotal p buf ≤ buf.length)
    (hstrip : p.initialBytesToStrip ≤ decodedTotal p buf)
    (hnarrow : decodedTotal p buf - p.initialBytesToStrip < 2 ^ 31) :
    decode p buf =
      ⟨buf.drop (decodedTotal p buf),
        some ((buf.drop p.initialBytesToStrip).take
          (decodedTotal p buf - p.initialBytesToStrip)),
        none⟩ := by
  have h2 : (2 : Nat) ^ 32 < 2 ^ 64 := by norm_num
  have h31 : (2 : Nat) ^ 31 < 2 ^ 32 := by norm_num
  have h64 : decodedTotal p buf < 2 ^ 64 := by omega
  have hmod : decodedTotal p buf % 2 ^ 64 = decodedTotal p buf := Nat.mod_eq_of_lt h64
  have hend : p.lengthFieldEndOffset ≤ decodedTotal p buf := Nat.le_add_left _ _
  have hsplit : splitSize p buf = decodedTotal p buf - p.initialBytesToStrip := by
    rw [splitSize, hmod, toInt32,
      Nat.mod_eq_of_lt (show decodedTotal p buf - p.initialBytesToStrip < 2 ^ 32 by omega),
      if_pos hnarrow, intToSizeT,
      Int.emod_eq_of_lt (Int.ofNat_nonneg _) (by exact_mod_cast (by omega :
        decodedTotal p buf - p.initialBytesToStrip < 2 ^ 64))]
    simp
  rw [decode, hmod]
  rw [if_neg (by omega), if_neg (by omega), if_neg (by omega),
    if_neg (by omega), if_neg (by omega), hsplit,
    if_pos (by rw [List.length_drop]; omega)]
  have hsum : p.initialBytesToStrip + (decodedTotal p buf - p.initialBytesToStrip) =
      decodedTotal p buf := by omega
  rw [List.drop_drop, hsum]

/-- C2 witness: the HELLO frame — `L=4, offset=0, adjust=0, strip=0,
maxFrame=1024`, network order, queue `00 00 00 05 48 45 4C 4C 4F`:
decode consumes all 9 bytes and emits them as one frame with no error. -/
theorem decode_emits_frame_witness :
    decodedTotal ⟨4, 1024, 0, 0, 0, true⟩ [0, 0, 0, 5, 72, 69, 76, 76, 79] = 9 ∧
    decode ⟨4, 1024, 0, 0, 0, true⟩ [0, 0, 0, 5, 72, 69, 76, 76, 79] =
      ⟨[], some [0, 0, 0, 5, 72, 69, 76, 76, 79], none⟩ := by
  refine ⟨by decide, ?_⟩
  have h := decode_emits_frame ⟨4, 1024, 0, 0, 0, true⟩ [0, 0, 0, 5, 72, 69, 76, 76, 79]
    (by decide) (by decide) (by decide) (by decide) (by decide) (by decide)
  exact h.trans (by decide)

/-- Reduction of the `getUnadjustedFrameLength` switch at width 4,
network byte order. -/
theorem getUnadjusted_four_BE (buf : List Nat) (offset : Nat) :
    getUnadjustedFrameLength buf offset 4 true = readBE ((buf.drop offset).take 4) := rfl

/-- C2 counterexample: `L=4, offset=0, adjust=0, strip=0,
maxFrame = 2^32−1` (a legal `uint32_t` configuration), length field
`FF FF FF FB` (2^32−5), so `total = 2^32−1 ≤ maxFrame`, with the queue
holding exactly `total` bytes and `strip = 0 ≤ total` — every hypothesis of
the claim holds.  The source computes
`int actualFrameLength = 4294967295 - 0`, which narrows to `-1`, converts
to `size_t` `2^64−1`, and `buf.split` throws `std::underflow_error`: no
frame is emitted, refuting the claim as stated. -/
theorem decode_emits_frame_cex :
    decodedTotal ⟨4, 4294967295, 0, 0, 0, true⟩
      ([255, 255, 255, 251] ++ List.replicate 4294967291 0) = 4294967295 ∧
    (⟨4, 4294967295, 0, 0, 0, true⟩ : DecoderParams).maxFrameLength = 4294967295 ∧
    ([255, 255, 255, 251] ++ List.replicate 4294967291 0).length = 4294967295 ∧
    (⟨4, 4294967295, 0, 0, 0, true⟩ : DecoderParams).initialBytesToStrip = 0 ∧
    (decode ⟨4, 4294967295, 0, 0, 0, true⟩
      ([255, 255, 255, 251] ++ List.replicate 4294967291 0)).frame = none ∧
    (decode ⟨4, 4294967295, 0, 0, 0, true⟩
      ([255, 255, 255, 251] ++ List.replicate 4294967291 0)).err =
      some DecodeErr.splitUnderflow := by
  have htake : ((([255, 255, 255, 251] : List Nat) ++
      List.replicate 4294967291 0).drop 0).take 4 = [255, 255, 255, 251] := by
    rfl
  have hv : getUnadjustedFrameLength
      ([255, 255, 255, 251] ++ List.replicate 4294967291 0) 0 4 true = 4294967291 := by
    rw [getUnadjusted_four_BE, htake]
    decide
  have htot : decodedTotal ⟨4, 4294967295, 0, 0, 0, true⟩
      ([255, 255, 255, 251] ++ List.replicate 4294967291 0) = 4294967295 := by
    show getUnadjustedFrameLength
        ([255, 255, 255, 251] ++ List.replicate 4294967291 0) 0 4 true + 0 + (0 + 4)
      = 4294967295
    rw [hv]
  have hlen : (([255, 255, 255, 251] : List Nat) ++
      List.replicate 4294967291 0).length = 4294967295 := by
    rw [List.length_append, List.length_replicate]
    rfl
  have hmod : decodedTotal ⟨4, 4294967295, 0, 0, 0, true⟩
      ([255, 255, 255, 251] ++ List.replicate 4294967291 0) % 2 ^ 64 = 4294967295 := by
    rw [htot]
    exact Nat.mod_eq_of_lt (by norm_num)
  have hsplit : splitSize ⟨4, 4294967295, 0, 0, 0, true⟩
      ([255, 255, 255, 251] ++ List.replicate 4294967291 0) = 18446744073709551615 := by
    show intToSizeT (toInt32 (decodedTotal ⟨4, 4294967295, 0, 0, 0, true⟩
      ([255, 255, 255, 251] ++ List.replicate 4294967291 0) % 2 ^ 64 - 0)) = _
    rw [hmod]
    decide
  have hld : ((([255, 255, 255, 251] : List Nat) ++
      List.replicate 4294967291 0).drop 0).length = 4294967295 := by
    rw [List.drop_zero, hlen]
  have hdec : decode ⟨4, 4294967295, 0, 0, 0, true⟩
      ([255, 255, 255, 251] ++ List.replicate 4294967291 0) =
      ⟨(([255, 255, 255, 251] : List Nat) ++ List.replicate 4294967291 0).drop 0,
        none, some DecodeErr.splitUnderflow⟩ := by
    have hepc : (⟨4, 4294967295, 0, 0, 0, true⟩ : DecoderParams).lengthFieldEndOffset
        = 4 := rfl
    have hmaxp : (⟨4, 4294967295, 0, 0, 0, true⟩ : DecoderParams).maxFrameLength
        = 4294967295 := rfl
    have hstripp : (⟨4, 4294967295, 0, 0, 0, true⟩ : DecoderParams).initialBytesToStrip
        = 0 := rfl
    rw [decode, hmod, hsplit, hepc, hmaxp, hstripp, hlen, hld]
    rw [if_neg (by norm_num), if_neg (by norm_num), if_neg (by norm_num),
      if_neg (by norm_num), if_neg (by norm_num), if_neg (by norm_num)]
  refine ⟨htot, rfl, hlen, rfl, ?_, ?_⟩
  · rw [hdec]
  · rw [hdec]

/-- C5: for every decoder configuration (legal width, constructor invariant
`offset + L ≤ maxFrame`) and every queue holding at least `offset + L`
bytes, if the computed total (the `uint64_t` value
`parsedLengthField + adjust + (offset + L)`) exceeds maxFrame, a single
decode invocation consumes `total` bytes (`List.drop` saturates: at most
what is present), raises the "frame larger than maxFrame" read-exception,
and emits no frame. -/
theorem decode_oversize_frame (p : DecoderParams) (buf : List Nat)
    (hL : p.lengthFieldLength = 1 ∨ p.lengthFieldLength = 2 ∨
      p.lengthFieldLength = 4 ∨ p.lengthFieldLength = 8)
    (hinv : p.lengthFieldEndOffset ≤ p.maxFrameLength)
    (hlen : p.lengthFieldEndOffset ≤ buf.length)
    (hbig : p.maxFrameLength < decodedTotal p buf % 2 ^ 64) :
    decode p buf =
      ⟨buf.drop (decodedTotal p buf % 2 ^ 64), none,
        some (.frameTooLarge p.maxFrameLength)⟩ := by
  rw [decode]
  rw [if_neg (by omega), if_neg (by omega), if_pos (by omega)]

set_option maxRecDepth 8192 in
/-- C5 witness: `L=4, offset=0, adjust=0, strip=0, maxFrame=1024`, length
prefix `00 00 04 01` (1025) followed by 1025 body bytes: decode raises
"frame larger than 1024" and discards all 1029 bytes present. -/
theorem decode_oversize_frame_witness :
    decodedTotal ⟨4, 1024, 0, 0, 0, true⟩ ([0, 0, 4, 1] ++ List.replicate 1025 7) % 2 ^ 64
      = 1029 ∧
    decode ⟨4, 1024, 0, 0, 0, true⟩ ([0, 0, 4, 1] ++ List.replicate 1025 7) =
      ⟨[], none, some (.frameTooLarge 1024)⟩ := by
  refine ⟨by decide, ?_⟩
  have h := decode_oversize_frame ⟨4, 1024, 0, 0, 0, true⟩
    ([0, 0, 4, 1] ++ List.replicate 1025 7)
    (by decide) (by decide) (by decide) (by decide)
  exact h.trans (by decide)

/-! ### PipelinedServerDispatcher (ServerDispatcher.h)

State of one dispatcher instance pinned to its event loop: `requestId_`
(starts at 1), `lastWrittenId_` (starts at 0), the `responses_` map
(association list, unique keys), plus the observable trace of fired writes
and (ghost) the ids handed out by `read` in arrival order.  Loop events are
either a `read` (assigns the next id and starts the service call) or the
completion of the service future for an assigned id, whose continuation
stores the response and runs `sendResponses`.  The response value produced
for request `id` is `g id` for an arbitrary fixed `g`. -/

/-- One event on the dispatcher's event loop. -/
inductive Ev where
  | read
  | complete (id : Nat)
deriving DecidableEq

/-- Dispatcher state (`requestId_`, `lastWrittenId_`, `responses_`), the
trace of responses fired as writes, and the ghost trace of assigned ids. -/
structure PSD where
  requestId : Nat
  lastWrittenId : Nat
  responses : List (Nat × Nat)
  written : List Nat
  assigned : List Nat
deriving DecidableEq

/-- Initial dispatcher state: `requestId_{1}`, `lastWrittenId_{0}`. -/
def PSD.init : PSD := ⟨1, 0, [], [], []⟩

/-- Models `responses_.erase(key)`: remove the entry with the given key. -/
def eraseKey (k : Nat) : List (Nat × Nat) → List (Nat × Nat)
  | [] => []
  | (k', v) :: rest => if k' == k then rest else (k', v) :: eraseKey k rest

/-- The `while` loop of `sendResponses`, bounded by fuel: while the map
contains `lastWrittenId_+1`, remove it, fire it as a write, and increment
`lastWrittenId_`. -/
def drainLoop : Nat → PSD → PSD
  | 0, s => s
  | fuel + 1, s =>
    match s.responses.lookup (s.lastWrittenId + 1) with
    | some v =>
      drainLoop fuel
        ⟨s.requestId, s.lastWrittenId + 1, eraseKey (s.lastWrittenId + 1) s.responses,
          s.written ++ [v], s.assigned⟩
    | none => s

/-- Models `PipelinedServerDispatcher::sendResponses`.  Each loop iteration erases
the entry it just found, so the map size bounds the number of iterations:
once the fuel `responses_.size()` is spent the map is empty and the loop
condition fails anyway (the drain invariant below proves the final state's
lookup misses, i.e. the loop genuinely exited). -/
def sendResponses (s : PSD) : PSD :=
  drainLoop s.responses.length s

/-- Models `PipelinedServerDispatcher::read` (assign `requestId_++` and issue the
service call) and the service-completion continuation
(`responses_[requestId] = resp; sendResponses();`). -/
def psdStep (g : Nat → Nat) (s : PSD) : Ev → PSD
  | .read => { s with requestId := s.requestId + 1, assigned := s.assigned ++ [s.requestId] }
  | .complete id => sendResponses { s with responses := s.responses ++ [(id, g id)] }

/-- Run the dispatcher over a sequence of loop events. -/
def psdRun (g : Nat → Nat) (es : List Ev) : PSD :=
  es.foldl (psdStep g) PSD.init

/-- Number of `read` events. -/
def readsCount : List Ev → Nat
  | [] => 0
  | .read :: rest => readsCount rest + 1
  | .complete _ :: rest => readsCount rest

/-- Ids of the completion events, in order. -/
def completedIds : List Ev → List Nat
  | [] => []
  | .read :: rest => completedIds rest
  | .complete id :: rest => id :: completedIds rest

/-- Validity of an event trace: a completion is for an id that has been
assigned by an earlier read (`1 ≤ id ≤ reads so far`) and each service
future completes at most once.  `r` counts earlier reads, `c` collects
earlier completions. -/
def validFrom (r : Nat) (c : List Nat) : List Ev → Bool
  | [] => true
  | .read :: rest => validFrom (r + 1) c rest
  | .complete id :: rest =>
    decide (1 ≤ id) && decide (id ≤ r) && !(decide (id ∈ c)) && validFrom r (id :: c) rest

/-- Keys of the `responses_` association list. -/
def keysOf (l : List (Nat × Nat)) : List Nat :=
  l.map Prod.fst

theorem lookup_none_iff_not_mem_keys (l : List (Nat × Nat)) (k : Nat) :
    l.lookup k = none ↔ k ∉ keysOf l := by
  induction l with
  | nil => simp [keysOf]
  | cons p rest ih =>
    cases p with
    | mk a b =>
      cases ha : k == a with
      | true =>
        have : k = a := by exact eq_of_beq ha
        subst this
        simp [List.lookup, ha, keysOf]
      | false =>
        have hne : k ≠ a := by
          intro hk
          subst hk
          simp at ha
        simp only [List.lookup, ha, keysOf, List.map_cons, List.mem_cons]
        rw [ih]
        simp [keysOf, hne]

theorem lookup_append_some (l₁ l₂ : List (Nat × Nat)) (k : Nat) (v : Nat)
    (h : l₁.lookup k = some v) : (l₁ ++ l₂).lookup k = some v := by
  induction l₁ with
  | nil => simp [List.lookup] at h
  | cons p rest ih =>
    cases p with
    | mk a b =>
      cases ha : k == a with
      | true =>
        simp only [List.lookup, ha] at h ⊢
        exact h
      | false =>
        simp only [List.lookup, ha] at h ⊢
        exact ih h

theorem lookup_append_none (l₁ l₂ : List (Nat × Nat)) (k : Nat)
    (h : l₁.lookup k = none) : (l₁ ++ l₂).lookup k = l₂.lookup k := by
  induction l₁ with
  | nil => rfl
  | cons p rest ih =>
    cases p with
    | mk a b =>
      cases ha : k == a with
      | true =>
        simp only [List.lookup, ha] at h
        simp at h
      | false =>
        simp only [List.lookup, ha] at h ⊢
        exact ih h

theorem lookup_eraseKey_ne (l : List (Nat × Nat)) (k k' : Nat) (h : k ≠ k') :
    (eraseKey k' l).lookup k = l.lookup k := by
  induction l with
  | nil => rfl
  | cons p rest ih =>
    cases p with
    | mk a b =>
      cases ha : a == k' with
      | true =>
        have : a = k' := eq_of_beq ha
        subst this
        have hka : (k == a) = false := beq_false_of_ne h
        simp only [eraseKey, ha, if_true, List.lookup, hka]
      | false =>
        simp only [eraseKey, ha]
        cases hka : k == a with
        | true => simp only [List.lookup, hka]
        | false =>
          simp only [List.lookup, hka]
          exact ih

theorem lookup_eraseKey_self (l : List (Nat × Nat)) (k : Nat)
    (hnd : (keysOf l).Nodup) : (eraseKey k l).lookup k = none := by
  induction l with
  | nil => rfl
  | cons p rest ih =>
    cases p with
    | mk a b =>
      have hnd' := hnd
      rw [keysOf, List.map_cons, List.nodup_cons] at hnd'
      cases ha : a == k with
      | true =>
        have : a = k := eq_of_beq ha
        subst this
        simp only [eraseKey, beq_self_eq_true, if_true]
        rw [lookup_none_iff_not_mem_keys]
        exact hnd'.1
      | false =>
        have hka : (k == a) = false := by
          cases hk : k == a with
          | false => rfl
          | true =>
            have : k = a := eq_of_beq hk
            subst this
            simp at ha
        simp only [eraseKey, ha, if_false, Bool.false_eq_true, ite_false, List.lookup, hka]
        exact ih hnd'.2

theorem keysOf_eraseKey_sublist (k : Nat) (l : List (Nat × Nat)) :
    List.Sublist (keysOf (eraseKey k l)) (keysOf l) := by
  induction l with
  | nil => simp [eraseKey, keysOf]
  | cons p rest ih =>
    cases p with
    | mk a b =>
      cases ha : a == k with
      | true =>
        simp only [eraseKey, ha, if_true, keysOf, List.map_cons]
        exact (List.Sublist.refl _).cons a
      | false =>
        simp only [eraseKey, ha, Bool.false_eq_true, if_false, ite_false, keysOf,
          List.map_cons]
        exact ih.cons₂ a

theorem length_eraseKey_lt (k : Nat) (l : List (Nat × Nat)) (v : Nat)
    (h : l.lookup k = some v) : (eraseKey k l).length < l.length := by
  induction l with
  | nil => simp [List.lookup] at h
  | cons p rest ih =>
    cases p with
    | mk a b =>
      cases ha : a == k with
      | true =>
        simp only [eraseKey, ha, if_true]
        exact Nat.lt_succ_self _
      | false =>
        have hka : (k == a) = false := by
          cases hk : k == a with
          | false => rfl
          | true =>
            have : k = a := eq_of_beq hk
            subst this
            simp at ha
        simp only [List.lookup, hka] at h
        simp only [eraseKey, ha, Bool.false_eq_true, if_false, ite_false, List.length_cons]
        exact Nat.succ_lt_succ (ih h)

theorem range'_one_concat (n : Nat) :
    List.range' 1 (n + 1) = List.range' 1 n ++ [n + 1] := by
  have := @List.range'_concat 1 1 n
  simpa [Nat.add_comm] using this

/-- The dispatcher invariant between loop events: `requestId_` counts the
reads, `assigned` is `1..r` in order, `written` is `g 1 .. g lastWrittenId_`
in order, the map has unique keys, holds `g k` under key `k`, and holds
exactly the completed-but-not-yet-written ids, all of which exceed
`lastWrittenId_`; every id up to `lastWrittenId_` has completed. -/
def PreInv (g : Nat → Nat) (r : Nat) (c : List Nat) (s : PSD) : Prop :=
  s.requestId = r + 1 ∧
  s.assigned = List.range' 1 r ∧
  s.written = (List.range' 1 s.lastWrittenId).map g ∧
  (keysOf s.responses).Nodup ∧
  (∀ k v, s.responses.lookup k = some v → v = g k) ∧
  (∀ k, (s.responses.lookup k).isSome ↔ (k ∈ c ∧ s.lastWrittenId < k)) ∧
  (∀ k, 1 ≤ k → k ≤ s.lastWrittenId → k ∈ c)

/-- The predicate PreInv plus the drain-loop exit condition: `lastWrittenId_+1` is not
in the map. -/
def Inv (g : Nat → Nat) (r : Nat) (c : List Nat) (s : PSD) : Prop :=
  PreInv g r c s ∧ s.responses.lookup (s.lastWrittenId + 1) = none

theorem drainLoop_inv (g : Nat → Nat) (r : Nat) (c : List Nat) :
    ∀ (fuel : Nat) (s : PSD), s.responses.length ≤ fuel → PreInv g r c s →
      Inv g r c (drainLoop fuel s) := by
  intro fuel
  induction fuel with
  | zero =>
    intro s hlen hpre
    have hnil : s.responses = [] := List.eq_nil_of_length_eq_zero (Nat.le_zero.mp hlen)
    refine ⟨hpre, ?_⟩
    show List.lookup (s.lastWrittenId + 1) s.responses = none
    rw [hnil]
    rfl
  | succ fuel ih =>
    intro s hlen hpre
    cases hlook : s.responses.lookup (s.lastWrittenId + 1) with
    | none =>
      have hred : drainLoop (fuel + 1) s = s := by
        simp [drainLoop, hlook]
      rw [hred]
      exact ⟨hpre, hlook⟩
    | some v =>
      obtain ⟨hreq, hass, hwr, hnd, hval, hiff, hpref⟩ := hpre
      have hred : drainLoop (fuel + 1) s = drainLoop fuel
          ⟨s.requestId, s.lastWrittenId + 1, eraseKey (s.lastWrittenId + 1) s.responses,
            s.written ++ [v], s.assigned⟩ := by
        simp [drainLoop, hlook]
      rw [hred]
      apply ih
      · have := length_eraseKey_lt (s.lastWrittenId + 1) s.responses v hlook
        simp only []
        omega
      · have hv : v = g (s.lastWrittenId + 1) := hval _ _ hlook
        refine ⟨hreq, hass, ?_, ?_, ?_, ?_, ?_⟩
        · show s.written ++ [v] = (List.range' 1 (s.lastWrittenId + 1)).map g
          rw [hwr, hv, range'_one_concat, List.map_append]
          rfl
        · exact hnd.sublist (keysOf_eraseKey_sublist _ _)
        · intro k w hk
          by_cases hkk : k = s.lastWrittenId + 1
          · subst hkk
            rw [lookup_eraseKey_self _ _ hnd] at hk
            simp at hk
          · rw [lookup_eraseKey_ne _ _ _ hkk] at hk
            exact hval _ _ hk
        · intro k
          show (List.lookup k (eraseKey (s.lastWrittenId + 1) s.responses)).isSome ↔
            (k ∈ c ∧ s.lastWrittenId + 1 < k)
          by_cases hkk : k = s.lastWrittenId + 1
          · subst hkk
            rw [lookup_eraseKey_self _ _ hnd]
            simp
          · rw [lookup_eraseKey_ne _ _ _ hkk]
            rw [hiff k]
            constructor
            · rintro ⟨hc, hlt⟩
              exact ⟨hc, by omega⟩
            · rintro ⟨hc, hlt⟩
              exact ⟨hc, by omega⟩
        · intro k h1 h2
          have h2' : k ≤ s.lastWrittenId + 1 := h2
          by_cases hkk : k = s.lastWrittenId + 1
          · subst hkk
            have hs : (s.responses.lookup (s.lastWrittenId + 1)).isSome := by
              rw [hlook]; rfl
            exact ((hiff _).mp hs).1
          · exact hpref k h1 (by omega)

theorem sendResponses_inv (g : Nat → Nat) (r : Nat) (c : List Nat) (s : PSD)
    (hpre : PreInv g r c s) : Inv g r c (sendResponses s) :=
  drainLoop_inv g r c s.responses.length s (Nat.le_refl _) hpre

theorem psdStep_read_inv (g : Nat → Nat) (r : Nat) (c : List Nat) (s : PSD)
    (h : Inv g r c s) : Inv g (r + 1) c (psdStep g s .read) := by
  obtain ⟨⟨hreq, hass, hwr, hnd, hval, hiff, hpref⟩, hdr⟩ := h
  refine ⟨⟨?_, ?_, hwr, hnd, hval, hiff, hpref⟩, hdr⟩
  · show s.requestId + 1 = (r + 1) + 1
    rw [hreq]
  · show s.assigned ++ [s.requestId] = List.range' 1 (r + 1)
    rw [hass, hreq, range'_one_concat]

theorem psdStep_complete_inv (g : Nat → Nat) (r : Nat) (c : List Nat) (s : PSD)
    (id : Nat) (hid1 : 1 ≤ id) (hidr : id ≤ r) (hidc : id ∉ c)
    (h : Inv g r c s) : Inv g r (id :: c) (psdStep g s (.complete id)) := by
  obtain ⟨⟨hreq, hass, hwr, hnd, hval, hiff, hpref⟩, hdr⟩ := h
  apply sendResponses_inv
  have hlid : s.responses.lookup id = none := by
    cases hx : s.responses.lookup id with
    | none => rfl
    | some u =>
      have hs : (s.responses.lookup id).isSome := by rw [hx]; rfl
      exact absurd ((hiff id).mp hs).1 hidc
  have hlw_lt : s.lastWrittenId < id := by
    by_contra hle
    push_neg at hle
    exact hidc (hpref id hid1 hle)
  refine ⟨hreq, hass, hwr, ?_, ?_, ?_, ?_⟩
  · show (keysOf (s.responses ++ [(id, g id)])).Nodup
    rw [keysOf, List.map_append]
    rw [List.nodup_append]
    refine ⟨hnd, by simp, ?_⟩
    intro x hx hx'
    simp at hx'
    subst hx'
    rw [lookup_none_iff_not_mem_keys] at hlid
    exact hlid hx
  · intro k w hk
    by_cases hkk : k = id
    · subst hkk
      rw [lookup_append_none _ _ _ hlid] at hk
      simp [List.lookup] at hk
      exact hk.symm
    · cases hsk : s.responses.lookup k with
      | some u =>
        rw [lookup_append_some _ _ _ _ hsk] at hk
        have : u = w := by simpa using hk
        subst this
        exact hval _ _ hsk
      | none =>
        rw [lookup_append_none _ _ _ hsk] at hk
        simp [List.lookup, beq_false_of_ne hkk] at hk
  · intro k
    by_cases hkk : k = id
    · subst hkk
      rw [lookup_append_none _ _ _ hlid]
      simp only [List.lookup, beq_self_eq_true]
      constructor
      · intro _
        exact ⟨List.mem_cons_self _ _, hlw_lt⟩
      · intro _
        rfl
    · cases hsk : s.responses.lookup k with
      | some u =>
        rw [lookup_append_some _ _ _ _ hsk]
        have hmem := (hiff k).mp (by rw [hsk]; rfl)
        exact ⟨fun _ => ⟨List.mem_cons_of_mem _ hmem.1, hmem.2⟩, fun _ => rfl⟩
      | none =>
        rw [lookup_append_none _ _ _ hsk]
        have hnone : List.lookup k [(id, g id)] = none := by
          simp [List.lookup, beq_false_of_ne hkk]
        rw [hnone]
        have hfalse : ¬ (k ∈ c ∧ s.lastWrittenId < k) := by
          intro hx
          have := (hiff k).mpr hx
          rw [hsk] at this
          simp at this
        constructor
        · intro hx
          simp at hx
        · rintro ⟨hmem, hlt⟩
          rcases List.mem_cons.mp hmem with h1 | h1
          · exact absurd h1 hkk
          · exact absurd ⟨h1, hlt⟩ hfalse
  · intro k h1 h2
    exact List.mem_cons_of_mem _ (hpref k h1 h2)

theorem Inv_congr (g : Nat → Nat) (r : Nat) (c₁ c₂ : List Nat) (s : PSD)
    (hc : ∀ k, k ∈ c₁ ↔ k ∈ c₂) (h : Inv g r c₁ s) : Inv g r c₂ s := by
  obtain ⟨⟨hreq, hass, hwr, hnd, hval, hiff, hpref⟩, hdr⟩ := h
  refine ⟨⟨hreq, hass, hwr, hnd, hval, ?_, ?_⟩, hdr⟩
  · intro k
    rw [hiff k]
    constructor
    · rintro ⟨h1, h2⟩
      exact ⟨(hc k).mp h1, h2⟩
    · rintro ⟨h1, h2⟩
      exact ⟨(hc k).mpr h1, h2⟩
  · intro k h1 h2
    exact (hc k).mp (hpref k h1 h2)

theorem psdRun_inv (g : Nat → Nat) :
    ∀ (es : List Ev) (r : Nat) (c : List Nat) (s : PSD),
      validFrom r c es = true → Inv g r c s →
      Inv g (r + readsCount es) (completedIds es ++ c) (es.foldl (psdStep g) s) := by
  intro es
  induction es with
  | nil =>
    intro r c s _ h
    simpa [readsCount, completedIds] using h
  | cons e rest ih =>
    intro r c s hv h
    cases e with
    | read =>
      simp only [validFrom] at hv
      have hstep := psdStep_read_inv g r c s h
      have hrec := ih (r + 1) c (psdStep g s .read) hv hstep
      simp only [readsCount, completedIds, List.foldl_cons]
      have harith : (r + 1) + readsCount rest = r + (readsCount rest + 1) := by omega
      rw [← harith]
      exact hrec
    | complete id =>
      simp only [validFrom, Bool.and_eq_true, decide_eq_true_eq,
        Bool.not_eq_true'] at hv
      obtain ⟨⟨⟨h1, h2⟩, h3⟩, h4⟩ := hv
      have hnotc : id ∉ c := by
        intro hmem
        rw [decide_eq_false_iff_not] at h3
        exact h3 hmem
      have hstep := psdStep_complete_inv g r c s id h1 h2 hnotc h
      have hrec := ih r (id :: c) (psdStep g s (.complete id)) h4 hstep
      simp only [readsCount, completedIds, List.foldl_cons]
      apply Inv_congr g (r + readsCount rest) (completedIds rest ++ id :: c)
        ((id :: completedIds rest) ++ c) _ ?_ hrec
      intro k
      simp only [List.mem_append, List.mem_cons]
      tauto

/-- C3: for the PipelinedServerDispatcher, over every valid event trace
(reads and service completions of previously assigned, not yet completed
ids), request ids are assigned 1,2,3,... in read-arrival order
(`assigned = [1..reads]`, `requestId_ = reads+1`), and the responses fired
as writes are exactly `g 1, ..., g lastWrittenId_` in increasing id order —
regardless of completion order.  Every id up to `lastWrittenId_` has
completed and `lastWrittenId_+1` has not, so the drain routine wrote
precisely the completed prefix: no response with id `k` is ever written
before every response with id less than `k` (apply the theorem to any
prefix of the trace). -/
theorem pipelined_server_dispatcher_ordering (g : Nat → Nat) (es : List Ev)
    (hv : validFrom 0 [] es = true) :
    (psdRun g es).assigned = List.range' 1 (readsCount es) ∧
    (psdRun g es).requestId = readsCount es + 1 ∧
    (psdRun g es).written = (List.range' 1 (psdRun g es).lastWrittenId).map g ∧
    ((List.range' 1 (psdRun g es).lastWrittenId).all
      (fun k => decide (k ∈ completedIds es))) = true ∧
    (decide ((psdRun g es).lastWrittenId + 1 ∈ completedIds es)) = false := by
  have hinit : Inv g 0 [] PSD.init := by
    refine ⟨⟨rfl, rfl, rfl, ?_, ?_, ?_, ?_⟩, rfl⟩
    · exact List.nodup_nil
    · intro k v hk
      simp [PSD.init, List.lookup] at hk
    · intro k
      simp [PSD.init, List.lookup]
    · intro k h1 h2
      simp [PSD.init] at h2
      omega
  have h := psdRun_inv g es 0 [] PSD.init hv hinit
  rw [Nat.zero_add, List.append_nil] at h
  obtain ⟨⟨hreq, hass, hwr, _, _, hiff, hpref⟩, hdr⟩ := h
  simp only [psdRun]
  refine ⟨hass, hreq, hwr, ?_, ?_⟩
  · rw [List.all_eq_true]
    intro k hk
    rw [List.mem_range'_1] at hk
    rw [decide_eq_true_eq]
    exact hpref k hk.1 (by omega)
  · rw [decide_eq_false_iff_not]
    intro hmem
    have hx := (hiff ((List.foldl (psdStep g) PSD.init es).lastWrittenId + 1)).mpr
      ⟨hmem, Nat.lt_succ_self _⟩
    rw [hdr] at hx
    simp at hx

/-- C3 witness: three reads whose service futures complete in order 2,3,1
(the scenario from the spec); the writes fired are exactly
`resp1, resp2, resp3` in id order. -/
theorem pipelined_server_dispatcher_ordering_witness :
    validFrom 0 []
      [Ev.read, Ev.read, Ev.read, Ev.complete 2, Ev.complete 3, Ev.complete 1] = true ∧
    (psdRun (fun i => i + 100)
      [Ev.read, Ev.read, Ev.read, Ev.complete 2, Ev.complete 3, Ev.complete 1]).written
      = [101, 102, 103] ∧
    (psdRun (fun i => i + 100)
      [Ev.read, Ev.read, Ev.read, Ev.complete 2, Ev.complete 3, Ev.complete 1]).assigned
      = [1, 2, 3] := by
  have h := pipelined_server_dispatcher_ordering (fun i => i + 100)
    [Ev.read, Ev.read, Ev.read, Ev.complete 2, Ev.complete 3, Ev.complete 1]
    (by decide)
  refine ⟨by decide, ?_, ?_⟩
  · exact h.2.2.1.trans (by decide)
  · exact h.1.trans (by decide)

/-! ### SerialClientDispatcher (ClientDispatcher.h)

The slot `p_ : folly::Optional<folly::Promise<Resp>>` is modelled by an
optional promise identity; `nextPromise` numbers freshly created promises,
`writes` is the trace of requests written through the pipeline, and
`fulfilled` the trace of promise fulfilments. -/

/-- SerialClientDispatcher state. -/
structure SCD where
  slot : Option Nat
  nextPromise : Nat
  writes : List Nat
  fulfilled : List (Nat × Nat)
deriving DecidableEq

/-- Fresh dispatcher: empty slot. -/
def SCD.init : SCD := ⟨none, 0, [], []⟩

/-- Models `SerialClientDispatcher::operator()(Req)`: `CHECK(!p_)` is a
precondition failure when the slot is occupied; otherwise store a fresh
promise, write the request through the pipeline, and return that promise's
future (its identity). -/
def scdCall (req : Nat) (s : SCD) : Except String (Nat × SCD) :=
  match s.slot with
  | some _ => .error ("CHECK failed: a request is already outstanding")
  | none =>
    .ok (s.nextPromise,
      ⟨some s.nextPromise, s.nextPromise + 1, s.writes ++ [req], s.fulfilled⟩)

/-- Models `SerialClientDispatcher::read(ctx, Resp)`: `DCHECK(p_)` requires the
slot occupied; fulfil the stored promise with the response and clear the
slot. -/
def scdRead (resp : Nat) (s : SCD) : Except String SCD :=
  match s.slot with
  | none => .error ("DCHECK failed: no outstanding request")
  | some p => .ok ⟨none, s.nextPromise, s.writes, s.fulfilled ++ [(p, resp)]⟩

/-- C6: for the SerialClientDispatcher — a call with the slot occupied is a
precondition failure; a call with the slot empty stores a fresh promise,
writes the request through the pipeline and returns that promise's future;
a read with the slot empty is a precondition failure; a read with the slot
occupied fulfils the stored promise with the response and empties the slot,
after which the next request can be issued (final conjunct: a second call
on the post-read state succeeds). -/
theorem serial_client_dispatcher_contract (p n : Nat) (w : List Nat)
    (f : List (Nat × Nat)) (req req2 resp : Nat) :
    scdCall req ⟨some p, n, w, f⟩ =
      .error ("CHECK failed: a request is already outstanding") ∧
    scdCall req ⟨none, n, w, f⟩ = .ok (n, ⟨some n, n + 1, w ++ [req], f⟩) ∧
    scdRead resp ⟨none, n, w, f⟩ = .error ("DCHECK failed: no outstanding request") ∧
    scdRead resp ⟨some p, n, w, f⟩ = .ok ⟨none, n, w, f ++ [(p, resp)]⟩ ∧
    scdCall req2 ⟨none, n, w, f ++ [(p, resp)]⟩ =
      .ok (n, ⟨some n, n + 1, w ++ [req2], f ++ [(p, resp)]⟩) := by
  exact ⟨rfl, rfl, rfl, rfl, rfl⟩

/-! ### Handler attachment (Handler.h / HandlerContext.h) -/

/-- The attach bookkeeping of a handler: `attachCount_` and the published
context pointer `ctx_`. -/
structure HandlerState where
  attachCount : Nat
  ctx : Option Nat
deriving DecidableEq

/-- Models `PipelineContext::attachContext`:
`if (++handler->attachCount_ == 1) handler->ctx_ = ctx; else handler->ctx_ = nullptr;`. -/
def attachContext (c : Nat) (h : HandlerState) : HandlerState :=
  if h.attachCount + 1 == 1 then ⟨h.attachCount + 1, some c⟩
  else ⟨h.attachCount + 1, none⟩

/-- Models `PipelineContext::detachContext`:
`if (attachCount_ >= 1) --attachCount_; ctx_ = nullptr;`. -/
def detachContext (h : HandlerState) : HandlerState :=
  ⟨if 1 ≤ h.attachCount then h.attachCount - 1 else h.attachCount, none⟩

/-- Models `HandlerBase::getContext`:
`if (attachCount_ != 1) return nullptr; return ctx_;`. -/
def getContext (h : HandlerState) : Option Nat :=
  if h.attachCount != 1 then none else h.ctx

/-- C9: `getContext` returns the bound context only when the handler is
attached to exactly one pipeline (`attachCount_ = 1`); attaching a handler
that is already attached (`attachCount_ ≥ 1`) nulls the published context
pointer and makes `getContext` return null; a first attach on a detached
handler publishes the context and `getContext` hands it out. -/
theorem handler_attach_context (h : HandlerState) (c : Nat) :
    ((getContext h).isSome = true → h.attachCount = 1) ∧
    (1 ≤ h.attachCount →
      (attachContext c h).ctx = none ∧ getContext (attachContext c h) = none) ∧
    (h.attachCount = 0 →
      attachContext c h = ⟨1, some c⟩ ∧ getContext (attachContext c h) = some c) := by
  refine ⟨?_, ?_, ?_⟩
  · intro hs
    by_contra hne
    rw [getContext, if_pos (bne_iff_ne.mpr hne)] at hs
    simp at hs
  · intro h1
    have hfalse : (h.attachCount + 1 == 1) = false := by
      rw [beq_eq_false_iff_ne]
      omega
    have htrue : (h.attachCount + 1 != 1) = true := by
      rw [bne_iff_ne]
      omega
    rw [attachContext, if_neg (by rw [hfalse]; exact Bool.false_ne_true)]
    exact ⟨rfl, by rw [getContext, if_pos htrue]⟩
  · intro h0
    rw [attachContext, h0]
    exact ⟨rfl, rfl⟩

/-- C9 witness: a handler already attached once (`attachCount = 1`) hands
out its context; a second attach nulls it. -/
theorem handler_attach_context_witness :
    (getContext ⟨1, some 9⟩).isSome = true ∧
    (⟨1, some 9⟩ : HandlerState).attachCount = 1 ∧
    (attachContext 4 ⟨1, some 9⟩).ctx = none ∧
    getContext (attachContext 4 ⟨1, some 9⟩) = none ∧
    attachContext 4 ⟨0, none⟩ = ⟨1, some 4⟩ := by
  have h := handler_attach_context ⟨1, some 9⟩ 4
  have h0 := handler_attach_context ⟨0, none⟩ 4
  exact ⟨by decide, h.1 (by decide), (h.2.1 (by decide)).1, (h.2.1 (by decide)).2,
    (h0.2.2 (by decide)).1⟩

/-! ### Codel overload detector (Codel.cpp) -/

/-- The `std::chrono` milliseconds-to-microseconds conversion. -/
def msToUs (t : Nat) : Nat := 1000 * t

/-- Default of `FLAGS_codel_target_delay`: 5 (milliseconds). -/
def codelTargetDelayMs : Nat := 5

/-- Models `Codel::getLoad()`:
`std::min(100, (int)codelMinDelay_.count() / (2 * FLAGS_codel_target_delay))`.
`codelMinDelay_` is a `std::chrono::microseconds` value (the parameter of
`overloaded(std::chrono::microseconds delay)` is assigned to it), so
`.count()` is a microsecond count, narrowed to a 32-bit `int` by the cast,
while the flag is a millisecond figure; the division is C++ `int` division
(truncation toward zero, `Int.tdiv`) on the two raw numbers. -/
def getLoad (minDelayUs targetMs : Nat) : Int :=
  min 100 (Int.tdiv (toInt32 minDelayUs) (2 * (targetMs : Int)))

/-- The target comparison inside `Codel::overloaded`:
`minDelay > std::chrono::milliseconds(FLAGS_codel_target_delay)` — here
chrono does convert the flag to microseconds before comparing. -/
def minDelayExceedsTarget (minDelayUs targetMs : Nat) : Bool :=
  decide (msToUs targetMs < minDelayUs)

/-- C8 counterexample: with the default 5 ms target and a tracked minimum
delay of 5000 µs (= 5 ms), the minimum delay is below twice the target
(10 ms = 10000 µs) and the claim's unit-consistent formula gives 0, yet
`getLoad` divides the microsecond count by the raw millisecond flag and
returns 100. -/
theorem codel_getLoad_cex :
    getLoad 5000 codelTargetDelayMs = 100 ∧
    5000 < 2 * msToUs codelTargetDelayMs ∧
    min 100 (5000 / (2 * msToUs codelTargetDelayMs)) = 0 := by
  decide

example : getLoad (2 ^ 32 + 5) 5 = 0 := by decide

example : getLoad (2 ^ 31) 5 = -214748364 := by decide

/-- C8 (amended): `getLoad()` returns
`min(100, int32(minDelayMicroseconds) / (2 * targetMilliseconds))` — the
32-bit narrowing of the microsecond count divided by the raw millisecond
flag.  For counts below `2^31` (where the narrowing is value-preserving) it
equals `min(100, count / (2 * target))`, never exceeds 100, and is 0
exactly when the tracked minimum delay is below `2 * target`
*microseconds* (10 µs at the default target), not below twice the 5 ms
target delay. -/
theorem codel_getLoad_bounds (m t : Nat) (ht : 0 < t) (hm : m < 2 ^ 31) :
    getLoad m t = ((min 100 (m / (2 * t)) : Nat) : Int) ∧
    getLoad m t ≤ 100 ∧
    (getLoad m t = 0 ↔ m < 2 * t) := by
  have h31 : (2 : Nat) ^ 31 < 2 ^ 32 := by norm_num
  have hm32 : m < 2 ^ 32 := by omega
  have htoInt : toInt32 m = (m : Int) := by
    rw [toInt32, Nat.mod_eq_of_lt hm32, if_pos hm]
  have hdiv : Int.tdiv ((m : Int)) (2 * (t : Int)) = ((m / (2 * t) : Nat) : Int) := rfl
  have hform : getLoad m t = min (100 : Int) ((m / (2 * t) : Nat) : Int) := by
    rw [getLoad, htoInt, hdiv]
  have hcast : min (100 : Int) ((m / (2 * t) : Nat) : Int) =
      ((min 100 (m / (2 * t)) : Nat) : Int) := by
    rw [Nat.cast_min]
    norm_num
  refine ⟨hform.trans hcast, ?_, ?_⟩
  · rw [hform]
    exact min_le_left _ _
  · rw [hform.trans hcast]
    constructor
    · intro h
      have hz : min 100 (m / (2 * t)) = 0 := by exact_mod_cast h
      have hq : m / (2 * t) = 0 := by
        rcases Nat.min_eq_zero_iff.mp hz with h100 | hdv
        · omega
        · exact hdv
      exact (Nat.div_eq_zero_iff (by omega)).mp hq
    · intro h
      have hq : m / (2 * t) = 0 := (Nat.div_eq_zero_iff (by omega)).mpr h
      rw [hq]
      rfl

/-- C8 witness: the amended formula at minimum delay 7 µs and target 5 ms. -/
theorem codel_getLoad_bounds_witness :
    0 < 5 ∧ 7 < 2 ^ 31 ∧
    (getLoad 7 5 = ((min 100 (7 / (2 * 5)) : Nat) : Int) ∧
      getLoad 7 5 ≤ 100 ∧
      (getLoad 7 5 = 0 ↔ 7 < 2 * 5)) := by
  exact ⟨by decide, by decide, codel_getLoad_bounds 7 5 (by decide) (by decide)⟩

/-! ### AsyncSocketHandler::write (AsyncSocketHandler.h) -/

/-- Outcome of `AsyncSocketHandler::write`: an already-fulfilled success
(`makeFuture()`), a future failed with the NOT_OPEN
"socket is closed in write()" exception, or a buffer submitted to the
transport via `writeChain`. -/
inductive WriteOutcome where
  | done
  | failedNotOpen
  | submitted (buf : List Nat)
deriving DecidableEq

/-- Models `AsyncSocketHandler::write(ctx, buf)`: refresh the idle timeout, return
an already-fulfilled future when `buf` is null (this check precedes the
writability check), fail with NOT_OPEN when `socket_->good()` is false,
else submit the chain to the transport.  The first component records that
`refreshTimeout()` ran. -/
def asyncSocketWrite (good : Bool) (buf : Option (List Nat)) : Bool × WriteOutcome :=
  ( true
  , match buf with
    | none => .done
    | some b => if good then .submitted b else .failedNotOpen )

/-- C10: a null buffer yields an already-fulfilled success and nothing is
submitted to the transport, regardless of whether the socket is writable;
the not-writable "socket is closed in write()" failure is produced only for
non-null buffers. -/
theorem async_socket_write_null_buffer (good : Bool) (b : List Nat) :
    asyncSocketWrite good none = (true, .done) ∧
    asyncSocketWrite false (some b) = (true, .failedNotOpen) ∧
    asyncSocketWrite true (some b) = (true, .submitted b) := by
  cases good <;> exact ⟨rfl, rfl, rfl⟩

end Wangle
